import Mathlib

/-!
# Verification of the artisan-connect catalog service

Shallow embedding of the core of `backend/app.py`, `backend/utils.py` and
`backend/models.py` (with the one frontend helper `is_valid_phone` from
`frontend/app.py`), together with proofs settling the specification claims.

Modelling conventions:
* machine state (SQL rows, files on disk) is passed explicitly;
* the optional GenAI client is a value of type `Option (String → Option String)`:
  `none` models an unconfigured client, `some call` a configured one, and
  `call prompt = none` models any exception (timeout, transport, API error)
  raised by `generate_content`, while `call prompt = some s` models a response
  whose `.text or ""` is `s`;
* `json.loads` is modelled by `jsonLoadsFlat`, a parser for flat JSON objects
  whose keys and values are escape-free strings — the only shape the prompt
  asks the model for and the only shape the claims exercise;
* Python byte strings are `List Nat`.
-/

namespace ArtisanConnect

/-- SQL `LIKE` pattern matching over characters, case-insensitively; models
SQLAlchemy's `column.ilike(pattern)` as compiled for the backing store:
`%` matches any sequence of characters, `_` matches exactly one character,
and any other pattern character matches a single input character up to
lower-casing. -/
def likeMatch : List Char → List Char → Bool
  | [], cs => cs.isEmpty
  | p :: ps, cs =>
    if p = '%' then cs.tails.any (fun t => likeMatch ps t)
    else
      match cs with
      | [] => false
      | c :: cs' => (if p = '_' then true else p.toLower == c.toLower) && likeMatch ps cs'

/-- The defining equation of `likeMatch` on the empty pattern. -/
lemma likeMatch_nil (cs : List Char) : likeMatch [] cs = cs.isEmpty := rfl

/-- The defining equation of `likeMatch` on a pattern head. -/
lemma likeMatch_cons (p : Char) (ps cs : List Char) :
    likeMatch (p :: ps) cs =
      if p = '%' then cs.tails.any (fun t => likeMatch ps t)
      else
        match cs with
        | [] => false
        | c :: cs' => (if p = '_' then true else p.toLower == c.toLower) && likeMatch ps cs' :=
  rfl

/-- `ilike value pattern`: the SQL `value ILIKE pattern` predicate. -/
def ilike (value pattern : String) : Bool :=
  likeMatch pattern.data value.data

/-- Case-insensitive substring containment — the specification's reading of
"name contains q as a case-insensitive substring". -/
def ciContains (hay needle : String) : Bool :=
  (hay.data.map Char.toLower).tails.any
    (fun t => (needle.data.map Char.toLower).isPrefixOf t)

/-- A string free of the SQL LIKE wildcard characters. -/
def noWildcards (s : String) : Prop :=
  ∀ c ∈ s.data, c ≠ '%' ∧ c ≠ '_'

instance (s : String) : Decidable (noWildcards s) := by
  unfold noWildcards; infer_instance

/-- Model of Python `pathlib.Path(s).name` for paths whose final component is
a regular name (not `.` or `..`): drop trailing slashes, then keep everything
after the last remaining slash. -/
def pathName (s : String) : String :=
  ⟨((s.data.reverse.dropWhile (fun c => c = '/')).takeWhile (fun c => c ≠ '/')).reverse⟩

/-- Model of Python `pathlib.Path(s).suffix`: the final component's last
suffix including the dot, or `""` when the final component has no interior
dot (`"a."`, `".hidden"` and `"a"` all give `""`). -/
def pySuffix (s : String) : String :=
  let comp := (pathName s).data
  match comp.reverse.findIdx? (fun c => c = '.') with
  | none => ""
  | some k =>
    let i := comp.length - 1 - k
    if 0 < i ∧ i < comp.length - 1 then ⟨comp.drop i⟩ else ""

/-- The extension chosen by `save_image_and_enhance` (backend/utils.py):
`Path(getattr(upload_file, "filename", "") or ".jpg").suffix or ".jpg"`. -/
def uploadExt (hint : String) : String :=
  let e := pySuffix (if hint = "" then ".jpg" else hint)
  if e = "" then ".jpg" else e

/-- `absolute_image_url` from backend/app.py: prefix the configured public
origin when present, else return a root-relative path. -/
def absolute_image_url (backendOrigin filename : String) : String :=
  if backendOrigin ≠ "" then backendOrigin ++ "/static/" ++ filename
  else "/static/" ++ filename

/-! ## Data model (backend/models.py) -/

/-- A row of the `artisans` table. -/
structure Artisan where
  id : Nat
  name : String
  location : String
  language : String
  contact_number : String
  bio_original : String
  bio_translated : String
  bio_enriched : String
deriving Repr, DecidableEq

/-- A row of the `products` table. -/
structure Product where
  id : Nat
  artisan_id : Nat
  name : String
  description : String
  price : String
  image_path : String
deriving Repr, DecidableEq

/-- The relational store, with the autoincrement counters made explicit. -/
structure DB where
  artisans : List Artisan
  products : List Product
  nextArtisanId : Nat
  nextProductId : Nat
deriving Repr, DecidableEq

/-- `db.query(Artisan).get(aid)`. -/
def getArtisan (db : DB) (aid : Nat) : Option Artisan :=
  db.artisans.find? (fun a => a.id == aid)

/-- `db.query(Product).get(pid)`. -/
def getProduct (db : DB) (pid : Nat) : Option Product :=
  db.products.find? (fun p => p.id == pid)

/-! ## Enrichment gateway (backend/utils.py, `translate_and_enrich`) -/

/-- Skip JSON whitespace. -/
def skipWs : List Char → List Char
  | c :: cs => if c = ' ' ∨ c = '\n' ∨ c = '\t' ∨ c = '\r' then skipWs cs else c :: cs
  | [] => []

/-- Parse one escape-free JSON string literal: an opening quote, characters up
to the next quote, the closing quote.  Returns the literal's contents and the
remaining input. -/
def parseQuoted : List Char → Option (String × List Char)
  | '"' :: cs =>
    match cs.dropWhile (fun c => c ≠ '"') with
    | '"' :: cs' => some (⟨cs.takeWhile (fun c => c ≠ '"')⟩, cs')
    | _ => none
  | _ => none

/-- Parse a non-empty comma-separated list of `"key": "value"` pairs followed
by the closing `}` of the object.  The fuel only bounds the number of pairs;
`jsonLoadsFlat` passes more than enough. -/
def parsePairList : Nat → List Char → Option (List (String × String) × List Char)
  | 0, _ => none
  | fuel + 1, cs =>
    match parseQuoted (skipWs cs) with
    | none => none
    | some (k, cs2) =>
      match skipWs cs2 with
      | ':' :: cs3 =>
        match parseQuoted (skipWs cs3) with
        | none => none
        | some (v, cs4) =>
          match skipWs cs4 with
          | ',' :: cs5 =>
            match parsePairList fuel cs5 with
            | some (kvs, rest) => some ((k, v) :: kvs, rest)
            | none => none
          | '}' :: rest => some ([(k, v)], rest)
          | _ => none
      | _ => none

/-- Model of Python `json.loads`, restricted to flat objects whose keys and
values are escape-free string literals (the shape the prompt requests);
any other input is rejected, as `json.loads` rejects every non-object the
gateway can meet here. -/
def jsonLoadsFlat (s : String) : Option (List (String × String)) :=
  match skipWs s.data with
  | '{' :: cs =>
    let body :=
      match skipWs cs with
      | '}' :: rest => some (([] : List (String × String)), rest)
      | _ => parsePairList (s.data.length + 1) cs
    match body with
    | some (kvs, rest) => if (skipWs rest).isEmpty then some kvs else none
    | none => none
  | _ => none

/-- Python `dict.get key default` on the parsed object; with duplicate keys
`json.loads` keeps the last occurrence, hence the reversal. -/
def jget (kvs : List (String × String)) (key dflt : String) : String :=
  match kvs.reverse.lookup key with
  | some v => v
  | none => dflt

/-- Model of `re.search(r"\x7b.*\x7d", txt, flags=re.DOTALL)` on the response:
the span from the first opening brace to the last closing brace, provided the
closing brace comes after the opening one. -/
def extractBraceSpan (s : String) : Option String :=
  match s.data.dropWhile (fun c => c ≠ '{') with
  | [] => none
  | t =>
    match t.reverse.dropWhile (fun c => c ≠ '}') with
    | [] => none
    | r => some ⟨r.reverse⟩

/-- The f-string prompt built by `translate_and_enrich`. -/
def buildPrompt (text from_lang to_lang : String) : String :=
  "\nTranslate the following artisan story from " ++ from_lang ++ " to " ++ to_lang ++
  ". Then write a short enriched artisan bio (2-3 sentences) suitable for a marketplace listing that preserves origin, craftsmanship and simple care notes.\nReturn ONLY valid JSON with keys: translated, enriched.\n\nInput:\n" ++
  text ++ "\n"

/-- `translate_and_enrich` from backend/utils.py.  `client = none` models the
unconfigured `genai_client`; `call prompt = none` models any exception raised
by the request; `call prompt = some txt` models a response whose
`resp.text or ""` equals `txt`. -/
def translate_and_enrich (client : Option (String → Option String)) (text : String)
    (from_lang : String := "auto") (to_lang : String := "English") : String × String :=
  if text = "" then ("", "")
  else
    match client with
    | none => (text, text)
    | some call =>
      match call (buildPrompt text from_lang to_lang) with
      | none => (text, text)
      | some txt =>
        match extractBraceSpan txt with
        | some block =>
          match jsonLoadsFlat block with
          | some j => (jget j "translated" text, jget j "enriched" text)
          | none =>
            match jsonLoadsFlat txt with
            | some j2 => (jget j2 "translated" text, jget j2 "enriched" text)
            | none => (text, text)
        | none => (text, text)

/-! ## Asset store (backend/utils.py, `save_image_and_enhance`) -/

/-- The asset store's file system: stored path, byte content.  A path is
overwritten by consing; `lookupFile` sees the newest entry. -/
abbrev Fs := List (String × List Nat)

/-- Read a file. -/
def lookupFile (fs : Fs) (path : String) : Option (List Nat) :=
  List.lookup path fs

/-- Write (create or overwrite) a file. -/
def setFile (fs : Fs) (path : String) (content : List Nat) : Fs :=
  (path, content) :: fs

/-- Unlink a file (the source half of `Path.replace`). -/
def removeFile (fs : Fs) (path : String) : Fs :=
  fs.filter (fun e => e.1 != path)

/-- `DATA_DIR` of backend/utils.py, as a storage-relative location. -/
def DATA_DIR : String := "data/images"

/-- `MEDIA_DIR` of backend/app.py. -/
def MEDIA_DIR : String := "media"

/-- `save_image_and_enhance` from backend/utils.py (the second, live
definition).  `writeOk` models whether the OS-level byte write raises (its
exception propagates: `none`); `normalize` models the Pillow pipeline
(exif transpose, autocontrast, unsharp mask, thumbnail, re-save), where
`normalize content = none` is any exception inside the `try`, absorbed by
keeping the raw bytes.  Returns the updated file system and the saved
absolute path string. -/
def save_image_and_enhance (writeOk : Bool) (fs : Fs) (uuidHex : String)
    (hint : String) (content : List Nat)
    (normalize : List Nat → Option (List Nat)) : Option (Fs × String) :=
  if writeOk then
    let filename := uuidHex ++ uploadExt hint
    let out_path := DATA_DIR ++ "/" ++ filename
    let fs1 := setFile fs out_path content
    match normalize content with
    | some c2 => some (setFile fs1 out_path c2, out_path)
    | none => some (fs1, out_path)
  else none

/-- Model of `pathlib.Path(s).parent` rendered as a string. -/
def pathParent (s : String) : String :=
  let cs := s.data.reverse.dropWhile (fun c => c = '/')
  match cs.dropWhile (fun c => c ≠ '/') with
  | [] => "."
  | l => ⟨(l.dropWhile (fun c => c = '/')).reverse⟩

/-- The "move into MEDIA_DIR if saved elsewhere" step shared by
`upload_product` and `update_product` (backend/app.py): when the saved path's
parent is not `MEDIA_DIR`, `Path.replace` the file to `MEDIA_DIR/<name>`.
`none` models the exception `replace` raises when the source is missing. -/
def moveIntoMedia (fs : Fs) (path : String) : Option (Fs × String) :=
  if pathParent path = MEDIA_DIR then some (fs, path)
  else
    let target := MEDIA_DIR ++ "/" ++ pathName path
    match lookupFile fs path with
    | some bytes => some (setFile (removeFile fs path) target bytes, target)
    | none => none

/-! ## Catalog service routes (backend/app.py) -/

/-- An HTTP-level failure: `HTTPException(404, detail)` or an unhandled
exception surfacing as a 500. -/
inductive ApiError
  | notFound (detail : String)
  | serverError
deriving Repr, DecidableEq

/-- Response of `POST /register_artisan`. -/
structure RegisterResp where
  id : Nat
  name : String
deriving Repr, DecidableEq

/-- Response of the update and delete routes. -/
structure StatusResp where
  status : String
  id : Nat
deriving Repr, DecidableEq

/-- Response of `POST /upload_product`. -/
structure UploadResp where
  id : Nat
  image : String
deriving Repr, DecidableEq

/-- `POST /register_artisan`. -/
def register_artisan (client : Option (String → Option String)) (db : DB)
    (name location : String) (language : String := "English")
    (bio : String := "") (contact_number : String := "") : DB × RegisterResp :=
  let te := translate_and_enrich client bio language "English"
  let artisan : Artisan :=
    { id := db.nextArtisanId, name := name, location := location,
      language := language, contact_number := contact_number,
      bio_original := bio, bio_translated := te.1, bio_enriched := te.2 }
  ({ db with artisans := db.artisans ++ [artisan],
             nextArtisanId := db.nextArtisanId + 1 },
   { id := artisan.id, name := artisan.name })

/-- The form fields of `PUT /artisan/{id}`; `none` is an absent field. -/
structure ArtisanUpdate where
  name : Option String := none
  location : Option String := none
  language : Option String := none
  bio : Option String := none
  contact_number : Option String := none
deriving Repr, DecidableEq

/-- The field-by-field body of `PUT /artisan/{id}`: each supplied field
overwrites in the route's order, and a supplied bio is re-enriched with the
artisan's just-updated language (`artisan.language or "auto"`) as source and
"English" as target. -/
def applyArtisanUpdate (client : Option (String → Option String))
    (a0 : Artisan) (u : ArtisanUpdate) : Artisan :=
  let a1 := match u.name with | some v => { a0 with name := v } | none => a0
  let a2 := match u.location with | some v => { a1 with location := v } | none => a1
  let a3 := match u.language with | some v => { a2 with language := v } | none => a2
  let a4 :=
    match u.bio with
    | some b =>
      let te := translate_and_enrich client b
        (if a3.language = "" then "auto" else a3.language) "English"
      { a3 with bio_original := b, bio_translated := te.1, bio_enriched := te.2 }
    | none => a3
  match u.contact_number with
  | some v => { a4 with contact_number := v }
  | none => a4

/-- The committed effect of mutating the fetched row in the session: the row
with the artisan's id is replaced, every other row is untouched. -/
def replaceArtisanRow (l : List Artisan) (aid : Nat) (a' : Artisan) : List Artisan :=
  l.map (fun x => if x.id == aid then a' else x)

/-- Likewise for products. -/
def replaceProductRow (l : List Product) (pid : Nat) (p' : Product) : List Product :=
  l.map (fun x => if x.id == pid then p' else x)

/-- `PUT /artisan/{id}`. -/
def update_artisan (client : Option (String → Option String)) (db : DB)
    (artisan_id : Nat) (u : ArtisanUpdate) : Except ApiError (DB × StatusResp) :=
  match getArtisan db artisan_id with
  | none => .error (.notFound "Artisan not found")
  | some a0 =>
    let a5 := applyArtisanUpdate client a0 u
    .ok ({ db with artisans := replaceArtisanRow db.artisans artisan_id a5 },
         { status := "ok", id := a5.id })

/-- `POST /upload_product`: save the image first, move it under `MEDIA_DIR`,
then resolve the artisan (404 when missing), then persist the product whose
`image_path` is only the stored filename, answering with the public URL. -/
def upload_product (db : DB) (fs : Fs) (origin : String) (writeOk : Bool)
    (uuidHex : String) (normalize : List Nat → Option (List Nat))
    (artisan_id : Nat) (product_name : String) (description : String := "")
    (price : String := "") (hint : String := "") (content : List Nat := []) :
    Fs × Except ApiError (DB × UploadResp) :=
  match save_image_and_enhance writeOk fs uuidHex hint content normalize with
  | none => (fs, .error .serverError)
  | some (fs1, savedPath) =>
    match moveIntoMedia fs1 savedPath with
    | none => (fs1, .error .serverError)
    | some (fs2, savedPath2) =>
      match getArtisan db artisan_id with
      | none => (fs2, .error (.notFound "Artisan not found"))
      | some _ =>
        let product : Product :=
          { id := db.nextProductId, artisan_id := artisan_id, name := product_name,
            description := description, price := price,
            image_path := pathName savedPath2 }
        (fs2, .ok ({ db with products := db.products ++ [product],
                             nextProductId := db.nextProductId + 1 },
                   { id := product.id,
                     image := absolute_image_url origin (pathName savedPath2) }))

/-- The form fields of `PUT /product/{id}`; `file` carries the upload's
filename hint and bytes when a replacement image is supplied. -/
structure ProductUpdate where
  product_name : Option String := none
  description : Option String := none
  price : Option String := none
  file : Option (String × List Nat) := none
deriving Repr, DecidableEq

/-- The plain-field half of `PUT /product/{id}`: each supplied text field
overwrites in the route's order; the image is handled separately. -/
def applyProductFields (p0 : Product) (u : ProductUpdate) : Product :=
  let p1 := match u.product_name with | some v => { p0 with name := v } | none => p0
  let p2 := match u.description with | some v => { p1 with description := v } | none => p1
  match u.price with | some v => { p2 with price := v } | none => p2

/-- `PUT /product/{id}`: partial update with optional image replacement. -/
def update_product (db : DB) (fs : Fs) (writeOk : Bool) (uuidHex : String)
    (normalize : List Nat → Option (List Nat)) (product_id : Nat)
    (u : ProductUpdate) : Fs × Except ApiError (DB × StatusResp) :=
  match getProduct db product_id with
  | none => (fs, .error (.notFound "Product not found"))
  | some p0 =>
    let p3 := applyProductFields p0 u
    match u.file with
    | none =>
      (fs, .ok ({ db with products := replaceProductRow db.products product_id p3 },
                { status := "ok", id := p3.id }))
    | some (hint, content) =>
      match save_image_and_enhance writeOk fs uuidHex hint content normalize with
      | none => (fs, .error .serverError)
      | some (fs1, newPath) =>
        match moveIntoMedia fs1 newPath with
        | none => (fs1, .error .serverError)
        | some (fs2, newPath2) =>
          let p4 := { p3 with image_path := pathName newPath2 }
          (fs2, .ok ({ db with products := replaceProductRow db.products product_id p4 },
                     { status := "ok", id := p4.id }))

/-- `DELETE /product/{id}`. -/
def delete_product (db : DB) (product_id : Nat) : Except ApiError (DB × StatusResp) :=
  match getProduct db product_id with
  | none => .error (.notFound "Product not found")
  | some _ =>
    .ok ({ db with products := db.products.filter (fun x => x.id != product_id) },
         { status := "deleted", id := product_id })

/-- The product view built by `GET /artisan/{id}`. -/
structure ProductView where
  id : Nat
  name : String
  description : String
  price : String
  image_url : String
deriving Repr, DecidableEq

/-- The response of `GET /artisan/{id}`. -/
structure ArtisanView where
  id : Nat
  name : String
  location : String
  language : String
  contact_number : String
  bio_original : String
  bio_translated : String
  bio_enriched : String
  products : List ProductView
deriving Repr, DecidableEq

/-- `GET /artisan/{id}`: the artisan's fields verbatim, each owned product
with its public image URL rebuilt from the stored filename. -/
def get_artisan (db : DB) (origin : String) (artisan_id : Nat) :
    Except ApiError ArtisanView :=
  match getArtisan db artisan_id with
  | none => .error (.notFound "Artisan not found")
  | some a =>
    .ok { id := a.id, name := a.name, location := a.location, language := a.language,
          contact_number := a.contact_number, bio_original := a.bio_original,
          bio_translated := a.bio_translated, bio_enriched := a.bio_enriched,
          products := (db.products.filter (fun p => p.artisan_id == a.id)).map
            (fun p => { id := p.id, name := p.name, description := p.description,
                        price := p.price,
                        image_url := absolute_image_url origin (pathName p.image_path) }) }

/-- The Product ⋈ Artisan inner join, in the products' natural order. -/
def joinRows (db : DB) : List (Product × Artisan) :=
  db.products.filterMap (fun p => (getArtisan db p.artisan_id).map (fun a => (p, a)))

/-- `GET /search` (backend/app.py): ILIKE filter `%q%` on the product name,
optional ILIKE filter `%location%` on the joined artisan's location, capped
at `limit` (default 20). -/
def search (db : DB) (q : String := "") (location : String := "")
    (limit : Nat := 20) : List (Product × Artisan) :=
  let rows := (joinRows db).filter (fun r => ilike r.1.name ("%" ++ q ++ "%"))
  let rows :=
    if location = "" then rows
    else rows.filter (fun r => ilike r.2.location ("%" ++ location ++ "%"))
  rows.take limit

/-- The search operation as the specification words it: case-insensitive
substring match on the product name, optional case-insensitive substring
filter on the owning artisan's location, capped at `limit`. -/
def searchSpec (db : DB) (q : String := "") (location : String := "")
    (limit : Nat := 20) : List (Product × Artisan) :=
  let rows := (joinRows db).filter (fun r => ciContains r.1.name q)
  let rows :=
    if location = "" then rows
    else rows.filter (fun r => ciContains r.2.location location)
  rows.take limit

/-! ## Frontend validation (frontend/app.py) -/

/-- Model of Python `str.strip()`: drop leading and trailing whitespace. -/
def pyStrip (s : String) : String :=
  ⟨((s.data.dropWhile Char.isWhitespace).reverse.dropWhile Char.isWhitespace).reverse⟩

/-- `is_valid_phone` from frontend/app.py: non-empty, and the stripped value
is all digits and exactly 10 long.  (Python `str.isdigit` also admits
non-ASCII digit characters; the model restricts to ASCII digits, the only
characters the claims exercise.) -/
def is_valid_phone (s : String) : Bool :=
  if s = "" then false
  else
    let s2 := pyStrip s
    s2.data.all Char.isDigit && s2.length == 10

/-- The frontend's "Confirm & Register" submission (frontend/app.py): the
POST to `/register_artisan` is issued only when the contact number is
non-empty and passes `is_valid_phone`; the raw (untrimmed) value is what is
sent, and an empty name is replaced by "Unknown". -/
def frontend_register (client : Option (String → Option String)) (db : DB)
    (name location language story contact_number : String) :
    Option (DB × RegisterResp) :=
  if contact_number = "" then none
  else if is_valid_phone contact_number then
    some (register_artisan client db (if name = "" then "Unknown" else name)
      location language story contact_number)
  else none

/-! ## Sample data used by the witnesses and counterexamples -/

instance {ε α : Type} [DecidableEq ε] [DecidableEq α] : DecidableEq (Except ε α) := fun x y =>
  match x, y with
  | .ok a, .ok b => if h : a = b then isTrue (by rw [h]) else isFalse (by simp [h])
  | .error e, .error f => if h : e = f then isTrue (by rw [h]) else isFalse (by simp [h])
  | .ok _, .error _ => isFalse (by simp)
  | .error _, .ok _ => isFalse (by simp)

/-- A registered artisan, as in the spec's concrete scenario. -/
def artA : Artisan :=
  { id := 1, name := "Auto Tester", location := "Testville", language := "English",
    contact_number := "9876543210", bio_original := "Auto test bio",
    bio_translated := "Auto test bio", bio_enriched := "Auto test bio" }

/-- A product owned by `artA`. -/
def prodPot : Product :=
  { id := 1, artisan_id := 1, name := "Auto Pot", description := "",
    price := "250", image_path := "x.jpg" }

/-- A one-artisan, one-product catalog. -/
def dbW : DB :=
  { artisans := [artA], products := [prodPot], nextArtisanId := 2, nextProductId := 2 }

/-! ## Helper lemmas -/

/-- With no configured client the gateway is the identity on both fields. -/
lemma translate_none (text from_lang to_lang : String) :
    translate_and_enrich none text from_lang to_lang = (text, text) := by
  by_cases h : text = "" <;> simp [translate_and_enrich, h]

/-- A client call that raises gives the identity fallback. -/
lemma translate_call_fails (call : String → Option String) (text from_lang to_lang : String)
    (hcall : call (buildPrompt text from_lang to_lang) = none) :
    translate_and_enrich (some call) text from_lang to_lang = (text, text) := by
  by_cases h : text = "" <;> simp [translate_and_enrich, h, hcall]

/-! ## The claims -/

/-- C1: for every input and language pair, when no genai client is configured,
or the request raises, or no structured block can be extracted and parsed from
the response, `translate_and_enrich` returns the identity pair `(text, text)`
(it is a total function, so it never raises past its boundary); consequently
an artisan registered with no client configured has
`bio_translated = bio_original` and `bio_enriched = bio_original`. -/
theorem C1_enrichment_identity_fallback :
    (∀ text from_lang to_lang,
        translate_and_enrich none text from_lang to_lang = (text, text)) ∧
    (∀ (call : String → Option String) text from_lang to_lang,
        call (buildPrompt text from_lang to_lang) = none →
        translate_and_enrich (some call) text from_lang to_lang = (text, text)) ∧
    (∀ (call : String → Option String) text from_lang to_lang resp,
        call (buildPrompt text from_lang to_lang) = some resp →
        (extractBraceSpan resp = none ∨
          (∃ block, extractBraceSpan resp = some block ∧
            jsonLoadsFlat block = none ∧ jsonLoadsFlat resp = none)) →
        translate_and_enrich (some call) text from_lang to_lang = (text, text)) ∧
    (∀ db name location language bio contact_number,
        ∃ a, (register_artisan none db name location language bio contact_number).1.artisans
              = db.artisans ++ [a] ∧
          (register_artisan none db name location language bio contact_number).2.id = a.id ∧
          a.bio_original = bio ∧ a.bio_translated = bio ∧ a.bio_enriched = bio) := by
  refine ⟨translate_none, translate_call_fails, ?_, ?_⟩
  · intro call text fl tl resp hcall hfail
    by_cases h : text = ""
    · simp [translate_and_enrich, h]
    · rcases hfail with hnone | ⟨block, hb, hjb, hjr⟩
      · simp [translate_and_enrich, h, hcall, hnone]
      · simp [translate_and_enrich, h, hcall, hb, hjb, hjr]
  · intro db name location language bio contact_number
    refine ⟨{ id := db.nextArtisanId, name := name, location := location,
              language := language, contact_number := contact_number,
              bio_original := bio, bio_translated := bio, bio_enriched := bio },
            ?_, ?_, rfl, rfl, rfl⟩
    · simp [register_artisan, translate_none]
    · simp [register_artisan]

/-- C1 witness: the fallback at a concrete erroring client. -/
theorem C1_enrichment_identity_fallback_witness :
    translate_and_enrich (some (fun _ => none)) "hola amigos" "Spanish" "English"
      = ("hola amigos", "hola amigos") :=
  C1_enrichment_identity_fallback.2.1 (fun _ => none) "hola amigos" "Spanish" "English" rfl

/-- C5: deleting an existing product removes its record and answers
`{status := "deleted", id}`, and an immediately repeated delete of the same
id fails with `NotFound`. -/
theorem C5_delete_then_delete_not_found (db : DB) (pid : Nat) (p : Product)
    (hp : getProduct db pid = some p) :
    ∃ db', delete_product db pid = .ok (db', { status := "deleted", id := pid }) ∧
      getProduct db' pid = none ∧
      delete_product db' pid = .error (.notFound "Product not found") := by
  have h1 : delete_product db pid =
      .ok ({ db with products := db.products.filter (fun x => x.id != pid) },
           { status := "deleted", id := pid }) := by
    simp [delete_product, hp]
  have h2 : getProduct
      { db with products := db.products.filter (fun x => x.id != pid) } pid = none := by
    unfold getProduct
    rw [List.find?_eq_none]
    intro x hx
    have := (List.mem_filter.mp hx).2
    simpa using this
  exact ⟨_, h1, h2, by simp [delete_product, h2]⟩

/-- C5 witness: delete product 1 of the sample catalog twice. -/
theorem C5_delete_then_delete_not_found_witness :
    ∃ db', delete_product dbW 1 = .ok (db', { status := "deleted", id := 1 }) ∧
      getProduct db' 1 = none ∧
      delete_product db' 1 = .error (.notFound "Product not found") :=
  C5_delete_then_delete_not_found dbW 1 prodPot (by decide)

/-- How each `Artisan` field comes out of `applyArtisanUpdate`. -/
lemma applyArtisanUpdate_spec (client : Option (String → Option String))
    (a : Artisan) (u : ArtisanUpdate) :
    (applyArtisanUpdate client a u).id = a.id ∧
    (applyArtisanUpdate client a u).name = u.name.getD a.name ∧
    (applyArtisanUpdate client a u).location = u.location.getD a.location ∧
    (applyArtisanUpdate client a u).language = u.language.getD a.language ∧
    (applyArtisanUpdate client a u).contact_number = u.contact_number.getD a.contact_number ∧
    (u.bio = none →
      (applyArtisanUpdate client a u).bio_original = a.bio_original ∧
      (applyArtisanUpdate client a u).bio_translated = a.bio_translated ∧
      (applyArtisanUpdate client a u).bio_enriched = a.bio_enriched) ∧
    (∀ b, u.bio = some b →
      (applyArtisanUpdate client a u).bio_original = b ∧
      ((applyArtisanUpdate client a u).bio_translated,
       (applyArtisanUpdate client a u).bio_enriched) =
        translate_and_enrich client b
          (if u.language.getD a.language = "" then "auto" else u.language.getD a.language)
          "English") := by
  rcases u with ⟨un, ul, ug, ub, uc⟩
  cases un <;> cases ul <;> cases ug <;> cases ub <;> cases uc <;>
    simp [applyArtisanUpdate]

/-- Replacing the matching row keeps it findable under the same id. -/
lemma find?_replaceArtisanRow (l : List Artisan) (aid : Nat) (a' : Artisan)
    (h' : a'.id = aid) (hex : (l.find? (fun x => x.id == aid)).isSome) :
    (replaceArtisanRow l aid a').find? (fun x => x.id == aid) = some a' := by
  induction l with
  | nil => simp at hex
  | cons x xs ih =>
    simp only [replaceArtisanRow, List.map_cons]
    by_cases hx : x.id = aid
    · rw [if_pos (by simp [hx])]
      exact List.find?_cons_of_pos _ (by simp [h'])
    · rw [if_neg (by simp [hx]), List.find?_cons_of_neg _ (by simp [hx])]
      rw [List.find?_cons_of_neg _ (by simp [hx])] at hex
      exact ih hex

/-- The successful shape of `PUT /artisan/{id}`. -/
lemma update_artisan_ok (client : Option (String → Option String)) (db : DB)
    (aid : Nat) (u : ArtisanUpdate) (a : Artisan) (ha : getArtisan db aid = some a) :
    update_artisan client db aid u =
      .ok ({ db with artisans :=
               replaceArtisanRow db.artisans aid (applyArtisanUpdate client a u) },
           { status := "ok", id := (applyArtisanUpdate client a u).id }) := by
  simp [update_artisan, ha]

/-- C2: `PUT /artisan/{id}` overwrites exactly the supplied fields and leaves
every omitted field at its prior value; with bio omitted all three bio fields
are untouched, and rows of other artisans are untouched. -/
theorem C2_partial_update_frame (client : Option (String → Option String))
    (db : DB) (aid : Nat) (u : ArtisanUpdate) (a : Artisan)
    (ha : getArtisan db aid = some a) :
    ∃ db' r, update_artisan client db aid u = .ok (db', r) ∧
      ∃ a', getArtisan db' aid = some a' ∧
        a'.id = a.id ∧
        a'.name = u.name.getD a.name ∧
        a'.location = u.location.getD a.location ∧
        a'.language = u.language.getD a.language ∧
        a'.contact_number = u.contact_number.getD a.contact_number ∧
        (u.bio = none →
          a'.bio_original = a.bio_original ∧
          a'.bio_translated = a.bio_translated ∧
          a'.bio_enriched = a.bio_enriched) ∧
        (∀ x ∈ db.artisans, x.id ≠ aid → x ∈ db'.artisans) := by
  obtain ⟨hid, hname, hloc, hlang, hcontact, hbionone, _⟩ :=
    applyArtisanUpdate_spec client a u
  have haid : a.id = aid := by
    have := List.find?_some ha
    simpa using this
  refine ⟨_, _, update_artisan_ok client db aid u a ha,
    applyArtisanUpdate client a u, ?_, hid, hname, hloc, hlang, hcontact, hbionone, ?_⟩
  · refine find?_replaceArtisanRow db.artisans aid _ (hid.trans haid) ?_
    rw [getArtisan] at ha
    simp [ha]
  · intro x hx hxid
    refine List.mem_map.mpr ⟨x, hx, ?_⟩
    simp [hxid]

/-- C2 witness: updating only the location of the sample artisan leaves
name, language, the three bio fields and the contact number unchanged. -/
theorem C2_partial_update_frame_witness :
    ∃ db' r, update_artisan none dbW 1 ({ location := some "X" } : ArtisanUpdate)
        = .ok (db', r) ∧
      ∃ a', getArtisan db' 1 = some a' ∧
        a'.id = artA.id ∧
        a'.name = (({ location := some "X" } : ArtisanUpdate)).name.getD artA.name ∧
        a'.location = (({ location := some "X" } : ArtisanUpdate)).location.getD artA.location ∧
        a'.language = (({ location := some "X" } : ArtisanUpdate)).language.getD artA.language ∧
        a'.contact_number =
          (({ location := some "X" } : ArtisanUpdate)).contact_number.getD artA.contact_number ∧
        ((({ location := some "X" } : ArtisanUpdate)).bio = none →
          a'.bio_original = artA.bio_original ∧
          a'.bio_translated = artA.bio_translated ∧
          a'.bio_enriched = artA.bio_enriched) ∧
        (∀ x ∈ dbW.artisans, x.id ≠ 1 → x ∈ db'.artisans) :=
  C2_partial_update_frame none dbW 1 ({ location := some "X" } : ArtisanUpdate) artA (by decide)

/-- An artisan whose stored language is "German". -/
def artG : Artisan :=
  { id := 1, name := "G", location := "L", language := "German",
    contact_number := "", bio_original := "", bio_translated := "", bio_enriched := "" }

/-- A catalog holding only `artG`. -/
def dbG : DB :=
  { artisans := [artG], products := [], nextArtisanId := 2, nextProductId := 1 }

/-- A client returning one JSON answer for a request whose prompt names the
empty string as source language, and a different answer for any other
prompt: it makes the source-language choice observable. -/
def clientC6 : Option (String → Option String) :=
  some (fun p =>
    if p = buildPrompt "B" "" "English"
    then some "\x7b\"translated\": \"T1\", \"enriched\": \"E1\"\x7d"
    else some "\x7b\"translated\": \"T2\", \"enriched\": \"E2\"\x7d")

/-- The update supplying an empty language together with a bio. -/
def uC6 : ArtisanUpdate := { language := some "", bio := some "B" }

/-- C6 counterexample: update artisan 1 with `language = ""` and `bio = "B"`.
After the update the artisan's current language is `""`, and enrichment run
with that current language as source yields `("T1", "E1")`; but the route
stores `"T2"`, because `artisan.language or "auto"` substitutes `"auto"` for
the empty current language — so the claim's "uses the artisan's current
language as the source language" fails as stated. -/
theorem C6_counterexample :
    update_artisan clientC6 dbG 1 uC6 =
      .ok ({ artisans :=
               [{ artG with
                  language := "", bio_original := "B",
                  bio_translated := "T2", bio_enriched := "E2" }],
             products := [], nextArtisanId := 2, nextProductId := 1 },
           { status := "ok", id := 1 }) ∧
    translate_and_enrich clientC6 "B" "" "English" = ("T1", "E1") ∧
    ("T2" : String) ≠ "T1" := by
  set_option maxRecDepth 40000 in
  refine ⟨by decide, by decide, by decide⟩

/-- C6 (amended): a `PUT /artisan/{id}` supplying a bio re-runs enrichment on
it with source language the artisan's current (possibly just-updated)
language when that is non-empty, and `"auto"` when it is empty, target
"English", storing the supplied bio as `bio_original` and the outputs as
`bio_translated` and `bio_enriched`. -/
theorem C6_bio_reenrichment_amended (client : Option (String → Option String))
    (db : DB) (aid : Nat) (u : ArtisanUpdate) (a : Artisan) (b : String)
    (ha : getArtisan db aid = some a) (hb : u.bio = some b) :
    ∃ db' r, update_artisan client db aid u = .ok (db', r) ∧
      ∃ a', getArtisan db' aid = some a' ∧
        a'.language = u.language.getD a.language ∧
        a'.bio_original = b ∧
        (a'.bio_translated, a'.bio_enriched) =
          translate_and_enrich client b
            (if u.language.getD a.language = "" then "auto"
             else u.language.getD a.language) "English" := by
  obtain ⟨hid, _, _, hlang, _, _, hbio⟩ := applyArtisanUpdate_spec client a u
  have haid : a.id = aid := by simpa using List.find?_some ha
  obtain ⟨horig, hte⟩ := hbio b hb
  refine ⟨_, _, update_artisan_ok client db aid u a ha,
    applyArtisanUpdate client a u, ?_, hlang, horig, hte⟩
  refine find?_replaceArtisanRow db.artisans aid _ (hid.trans haid) ?_
  rw [getArtisan] at ha
  simp [ha]

/-- C6 witness: updating the sample German-language artisan with a fresh
language "French" and a bio re-enriches with source "French". -/
theorem C6_bio_reenrichment_amended_witness :
    ∃ db' r, update_artisan none dbG 1
        ({ language := some "French", bio := some "B" } : ArtisanUpdate) = .ok (db', r) ∧
      ∃ a', getArtisan db' 1 = some a' ∧
        a'.language = (({ language := some "French", bio := some "B" } :
          ArtisanUpdate)).language.getD artG.language ∧
        a'.bio_original = "B" ∧
        (a'.bio_translated, a'.bio_enriched) =
          translate_and_enrich none "B"
            (if (({ language := some "French", bio := some "B" } :
                   ArtisanUpdate)).language.getD artG.language = "" then "auto"
             else (({ language := some "French", bio := some "B" } :
                   ArtisanUpdate)).language.getD artG.language) "English" :=
  C6_bio_reenrichment_amended none dbG 1
    ({ language := some "French", bio := some "B" } : ArtisanUpdate) artG "B"
    (by decide) rfl

/-- An empty catalog. -/
def dbE : DB := { artisans := [], products := [], nextArtisanId := 1, nextProductId := 1 }

/-- C10 counterexample: `POST /register_artisan` itself never validates the
contact number — registering directly through the endpoint with
`contact_number = "abc"` persists the value even though it is not a
digits-only string of exactly 10 digits, so the claim that registration via
`POST /register_artisan` never persists a rule-violating contact number is
false. -/
theorem C10_counterexample :
    (register_artisan none dbE "N" "L" "English" "" "abc").1.artisans =
      [{ id := 1, name := "N", location := "L", language := "English",
         contact_number := "abc", bio_original := "",
         bio_translated := "", bio_enriched := "" }] ∧
    ¬ (("abc" : String).data.all Char.isDigit = true ∧ ("abc" : String).length = 10) := by
  refine ⟨by decide, by decide⟩

/-- C10 (amended): the 10-digit rule is enforced only by the UI layer — a
submission through the frontend's "Confirm & Register" flow goes out only if
`is_valid_phone` accepts it, so the artisan it persists carries the submitted
contact number, whose stripped form is a digits-only string of exactly 10
digits; the backend endpoint itself persists any string unvalidated. -/
theorem C10_frontend_ten_digit_rule (client : Option (String → Option String))
    (db : DB) (name location language story contact : String)
    (res : DB × RegisterResp)
    (h : frontend_register client db name location language story contact = some res) :
    ∃ a, res.1.artisans = db.artisans ++ [a] ∧
      a.contact_number = contact ∧
      (pyStrip contact).data.all Char.isDigit = true ∧
      (pyStrip contact).length = 10 := by
  unfold frontend_register at h
  by_cases h0 : contact = ""
  · rw [if_pos h0] at h
    cases h
  · rw [if_neg h0] at h
    by_cases h1 : is_valid_phone contact
    · rw [if_pos h1] at h
      have h2 := Option.some.inj h
      unfold is_valid_phone at h1
      rw [if_neg h0] at h1
      simp only [Bool.and_eq_true, beq_iff_eq] at h1
      refine ⟨{ id := db.nextArtisanId, name := (if name = "" then "Unknown" else name),
                location := location, language := language, contact_number := contact,
                bio_original := story,
                bio_translated := (translate_and_enrich client story language "English").1,
                bio_enriched := (translate_and_enrich client story language "English").2 },
              ?_, rfl, h1.1, h1.2⟩
      rw [← h2]
      simp [register_artisan]
    · rw [if_neg h1] at h
      cases h

/-- C10 witness: a frontend submission with contact "1234567890". -/
theorem C10_frontend_ten_digit_rule_witness :
    ∃ a, (register_artisan none dbE "Auto Tester" "Testville" "English" "story"
            "1234567890").1.artisans = dbE.artisans ++ [a] ∧
      a.contact_number = "1234567890" ∧
      (pyStrip "1234567890").data.all Char.isDigit = true ∧
      (pyStrip "1234567890").length = 10 :=
  C10_frontend_ten_digit_rule none dbE "Auto Tester" "Testville" "English" "story"
    "1234567890"
    (register_artisan none dbE "Auto Tester" "Testville" "English" "story" "1234567890")
    (by decide)

/-- Reading back the path just written. -/
lemma lookupFile_setFile (fs : Fs) (path : String) (content : List Nat) :
    lookupFile (setFile fs path content) path = some content := by
  simp [lookupFile, setFile, List.lookup]

/-- C8: for every byte stream — image or not — `save_image_and_enhance`
succeeds once the OS write of the raw bytes has gone through (the raw write
comes first); when the normalization pass fails for any reason the stored
file still holds the originally written bytes, and when it succeeds the
stored file holds the normalized bytes. -/
theorem C8_save_image_normalization_nonfatal (fs : Fs) (uuidHex hint : String)
    (content : List Nat) (normalize : List Nat → Option (List Nat)) :
    ∃ fs' path,
      save_image_and_enhance true fs uuidHex hint content normalize = some (fs', path) ∧
      (normalize content = none → lookupFile fs' path = some content) ∧
      (∀ c2, normalize content = some c2 → lookupFile fs' path = some c2) := by
  cases hn : normalize content with
  | none =>
    refine ⟨setFile fs (DATA_DIR ++ "/" ++ (uuidHex ++ uploadExt hint)) content,
            DATA_DIR ++ "/" ++ (uuidHex ++ uploadExt hint),
            ?_, fun _ => ?_, fun c2 hc => ?_⟩
    · simp [save_image_and_enhance, hn]
    · exact lookupFile_setFile ..
    · cases hc
  | some c2 =>
    refine ⟨setFile (setFile fs (DATA_DIR ++ "/" ++ (uuidHex ++ uploadExt hint)) content)
              (DATA_DIR ++ "/" ++ (uuidHex ++ uploadExt hint)) c2,
            DATA_DIR ++ "/" ++ (uuidHex ++ uploadExt hint),
            ?_, fun hc => ?_, fun c2' hc => ?_⟩
    · simp [save_image_and_enhance, hn]
    · cases hc
    · injection hc with hc2
      rw [← hc2]
      exact lookupFile_setFile ..

/-- C8 witness: saving the non-image byte stream `[1, 2, 3]` under an
always-failing normalizer retains the raw bytes. -/
theorem C8_save_image_normalization_nonfatal_witness :
    ∃ fs' path,
      save_image_and_enhance true [] "u0" "f.bin" [1, 2, 3] (fun _ => none)
        = some (fs', path) ∧
      ((fun _ => none : List Nat → Option (List Nat)) [1, 2, 3] = none →
        lookupFile fs' path = some [1, 2, 3]) ∧
      (∀ c2, (fun _ => none : List Nat → Option (List Nat)) [1, 2, 3] = some c2 →
        lookupFile fs' path = some c2) :=
  C8_save_image_normalization_nonfatal [] "u0" "f.bin" [1, 2, 3] (fun _ => none)

/-- A name produced by `pathName` never contains a slash. -/
lemma pathName_no_slash (s : String) : '/' ∉ (pathName s).data := by
  intro h
  have h' : '/' ∈ ((s.data.reverse.dropWhile (fun c => c = '/')).takeWhile
      (fun c => c ≠ '/')) := by
    have : (pathName s).data
        = ((s.data.reverse.dropWhile (fun c => c = '/')).takeWhile
            (fun c => c ≠ '/')).reverse := rfl
    rw [this, List.mem_reverse] at h
    exact h
  have := List.mem_takeWhile_imp h'
  simp at this

/-- The successful executions of `POST /upload_product`: the asset is stored
first and still present afterwards (holding the normalized bytes when
normalization succeeded, the raw bytes otherwise), the target artisan
resolved, exactly one product was appended, its `image_path` is the stored
file's bare name (no directory component), and the response carries the
public URL built from that name. -/
lemma upload_product_ok_inv (db : DB) (fs : Fs) (origin : String) (writeOk : Bool)
    (uuidHex : String) (normalize : List Nat → Option (List Nat)) (artisan_id : Nat)
    (product_name description price hint : String) (content : List Nat)
    (fs' : Fs) (db' : DB) (r : UploadResp)
    (h : upload_product db fs origin writeOk uuidHex normalize artisan_id
          product_name description price hint content = (fs', .ok (db', r))) :
    ∃ p storedPath,
      db'.products = db.products ++ [p] ∧
      db'.artisans = db.artisans ∧
      p.artisan_id = artisan_id ∧
      p.name = product_name ∧
      p.image_path = pathName storedPath ∧
      ('/' : Char) ∉ p.image_path.data ∧
      r = { id := p.id, image := absolute_image_url origin p.image_path } ∧
      lookupFile fs' storedPath = some ((normalize content).getD content) ∧
      (getArtisan db artisan_id).isSome := by
  unfold upload_product at h
  split at h
  · cases h
  next fs1 savedPath hsave =>
    have hbytes : lookupFile fs1 savedPath = some ((normalize content).getD content) := by
      unfold save_image_and_enhance at hsave
      cases writeOk with
      | false => simp at hsave
      | true =>
        rw [if_pos rfl] at hsave
        cases hn : normalize content with
        | none =>
          rw [hn] at hsave
          simp only [Option.some.injEq, Prod.mk.injEq] at hsave
          rw [← hsave.1, ← hsave.2]
          exact lookupFile_setFile ..
        | some c2 =>
          rw [hn] at hsave
          simp only [Option.some.injEq, Prod.mk.injEq] at hsave
          rw [← hsave.1, ← hsave.2]
          exact lookupFile_setFile ..
    split at h
    · cases h
    next fs2 storedPath hmove =>
      have hstored : lookupFile fs2 storedPath
          = some ((normalize content).getD content) := by
        unfold moveIntoMedia at hmove
        by_cases hpar : pathParent savedPath = MEDIA_DIR
        · rw [if_pos hpar] at hmove
          simp only [Option.some.injEq, Prod.mk.injEq] at hmove
          rw [← hmove.1, ← hmove.2]; exact hbytes
        · rw [if_neg hpar] at hmove
          cases hlk : lookupFile fs1 savedPath with
          | none => rw [hlk] at hmove; cases hmove
          | some bytes =>
            rw [hlk] at hmove
            simp only [Option.some.injEq, Prod.mk.injEq] at hmove
            rw [← hmove.1, ← hmove.2]
            rw [hlk] at hbytes
            rw [lookupFile_setFile, hbytes]
      split at h
      · cases h
      next a hart =>
        injection h with hfs hok
        injection hok with hpair
        injection hpair with hdb hr
        refine ⟨{ id := db.nextProductId, artisan_id := artisan_id,
                  name := product_name, description := description, price := price,
                  image_path := pathName storedPath }, storedPath,
                ?_, ?_, rfl, rfl, rfl, pathName_no_slash storedPath,
                hr.symm, ?_, by rw [hart]; rfl⟩
        · rw [← hdb]
        · rw [← hdb]
        · rw [← hfs]; exact hstored

/-- `applyProductFields` never touches the id, the artisan link or the
image path. -/
lemma applyProductFields_frame (p0 : Product) (u : ProductUpdate) :
    (applyProductFields p0 u).id = p0.id ∧
    (applyProductFields p0 u).artisan_id = p0.artisan_id ∧
    (applyProductFields p0 u).image_path = p0.image_path := by
  rcases u with ⟨upn, ud, upr, uf⟩
  cases upn <;> cases ud <;> cases upr <;> simp [applyProductFields]

/-- The successful executions of `PUT /product/{id}`: the targeted product
existed, and its row is replaced by one whose `image_path` is unchanged when
no replacement image is supplied and is a bare stored filename when one is. -/
lemma update_product_ok_inv (db : DB) (fs : Fs) (writeOk : Bool) (uuidHex : String)
    (normalize : List Nat → Option (List Nat)) (pid : Nat) (u : ProductUpdate)
    (fs' : Fs) (db' : DB) (r : StatusResp)
    (h : update_product db fs writeOk uuidHex normalize pid u = (fs', .ok (db', r))) :
    ∃ p0 p', getProduct db pid = some p0 ∧
      db'.products = replaceProductRow db.products pid p' ∧
      db'.artisans = db.artisans ∧
      (u.file = none → p'.image_path = p0.image_path) ∧
      (u.file ≠ none → ('/' : Char) ∉ p'.image_path.data) := by
  unfold update_product at h
  split at h
  · cases h
  next p0 hp0 =>
    split at h
    next hfnone =>
      injection h with hfs hok
      injection hok with hpair
      injection hpair with hdb hr
      refine ⟨p0, applyProductFields p0 u, hp0, ?_, ?_, fun _ => ?_,
              fun hne => absurd hfnone hne⟩
      · rw [← hdb]
      · rw [← hdb]
      · exact (applyProductFields_frame p0 u).2.2
    next hint content hffile =>
      split at h
      · cases h
      next fs1 newPath hsave =>
        split at h
        · cases h
        next fs2 newPath2 hmove =>
          injection h with hfs hok
          injection hok with hpair
          injection hpair with hdb hr
          refine ⟨p0, { applyProductFields p0 u with image_path := pathName newPath2 },
                  hp0, ?_, ?_, ?_, ?_⟩
          · rw [← hdb]
          · rw [← hdb]
          · intro hcontra
            rw [hffile] at hcontra
            cases hcontra
          · intro _
            exact pathName_no_slash newPath2

/-- Every product's stored `image_path` has no directory component. -/
def bareImagePaths (db : DB) : Prop :=
  ∀ p ∈ db.products, ('/' : Char) ∉ p.image_path.data

instance (db : DB) : Decidable (bareImagePaths db) := by
  unfold bareImagePaths; infer_instance

/-- C9: the two write operations that set `image_path` — product creation and
product update with image replacement (and trivially updates without one) —
preserve the invariant that every stored `image_path` is a bare filename with
no directory component; the full location is rebuilt at read time by
`absolute_image_url` and never stored. -/
theorem C9_image_path_always_bare :
    (∀ db fs origin writeOk uuidHex normalize aid pname desc price hint content fs' db' r,
        upload_product db fs origin writeOk uuidHex normalize aid pname desc price hint content
          = (fs', .ok (db', r)) →
        bareImagePaths db → bareImagePaths db') ∧
    (∀ db fs writeOk uuidHex normalize pid u fs' db' r,
        update_product db fs writeOk uuidHex normalize pid u = (fs', .ok (db', r)) →
        bareImagePaths db → bareImagePaths db') := by
  constructor
  · intro db fs origin writeOk uuidHex normalize aid pname desc price hint content fs' db' r h hinv
    obtain ⟨p, storedPath, hprod, _, _, _, _, hbare, _, _⟩ :=
      upload_product_ok_inv db fs origin writeOk uuidHex normalize aid pname desc price
        hint content fs' db' r h
    intro q hq
    rw [hprod] at hq
    rcases List.mem_append.mp hq with hq | hq
    · exact hinv q hq
    · rw [List.mem_singleton.mp hq]
      exact hbare
  · intro db fs writeOk uuidHex normalize pid u fs' db' r h hinv
    obtain ⟨p0, p', hp0, hprod, _, hnone, hsome⟩ :=
      update_product_ok_inv db fs writeOk uuidHex normalize pid u fs' db' r h
    have hp0mem : p0 ∈ db.products := List.mem_of_find?_eq_some hp0
    have hp' : ('/' : Char) ∉ p'.image_path.data := by
      cases hf : u.file with
      | none => rw [hnone hf]; exact hinv p0 hp0mem
      | some f => exact hsome (by rw [hf]; intro hc; cases hc)
    intro q hq
    rw [hprod] at hq
    obtain ⟨x, hx, hxq⟩ := List.mem_map.mp hq
    by_cases hxid : (x.id == pid) = true
    · rw [if_pos hxid] at hxq
      rw [← hxq]; exact hp'
    · rw [if_neg hxid] at hxq
      rw [← hxq]; exact hinv x hx

/-- C9 witness: a concrete successful upload into the sample catalog keeps
every stored image path bare. -/
theorem C9_image_path_always_bare_witness :
    bareImagePaths
      { artisans := [artA],
        products := [prodPot,
          { id := 2, artisan_id := 1, name := "P", description := "",
            price := "", image_path := "u0.jpg" }],
        nextArtisanId := 2, nextProductId := 3 } :=
  C9_image_path_always_bare.1 dbW [] "" true "u0" (fun _ => none) 1 "P" "" "" "f.jpg" [7]
    [("media/u0.jpg", [7])]
    { artisans := [artA],
      products := [prodPot,
        { id := 2, artisan_id := 1, name := "P", description := "",
          price := "", image_path := "u0.jpg" }],
      nextArtisanId := 2, nextProductId := 3 }
    { id := 2, image := "/static/u0.jpg" }
    (by decide) (by decide)

/-- C4: `POST /upload_product` writes the catalog record only after the asset
write has returned — when the OS write raises, the request fails with no
record and no file; when the target artisan does not resolve the request
fails with `NotFound` and creates no product record (the asset, already
written, is simply left behind); on success the record references only the
bare stored filename while the response carries the public image URL. -/
theorem C4_upload_product_contract :
    (∀ db fs origin uuidHex normalize aid pname desc price hint content,
        upload_product db fs origin false uuidHex normalize aid pname desc price hint
          content = (fs, .error .serverError)) ∧
    (∀ db fs origin uuidHex normalize aid pname desc price hint content,
        getArtisan db aid = none →
        (upload_product db fs origin true uuidHex normalize aid pname desc price
          hint content).2 = .error (.notFound "Artisan not found")) ∧
    (∀ db fs origin writeOk uuidHex normalize aid pname desc price hint content fs' db' r,
        upload_product db fs origin writeOk uuidHex normalize aid pname desc price hint
          content = (fs', .ok (db', r)) →
        ∃ p storedPath,
          db'.products = db.products ++ [p] ∧
          p.artisan_id = aid ∧
          p.image_path = pathName storedPath ∧
          ('/' : Char) ∉ p.image_path.data ∧
          r = { id := p.id, image := absolute_image_url origin p.image_path } ∧
          lookupFile fs' storedPath = some ((normalize content).getD content) ∧
          (getArtisan db aid).isSome) := by
  refine ⟨?_, ?_, ?_⟩
  · intro db fs origin uuidHex normalize aid pname desc price hint content
    rfl
  · intro db fs origin uuidHex normalize aid pname desc price hint content hart
    unfold upload_product
    split
    next hsave =>
      exfalso
      unfold save_image_and_enhance at hsave
      rw [if_pos rfl] at hsave
      cases hn : normalize content <;> rw [hn] at hsave <;> cases hsave
    next fs1 savedPath hsave =>
      split
      next hmove =>
        exfalso
        unfold save_image_and_enhance at hsave
        rw [if_pos rfl] at hsave
        unfold moveIntoMedia at hmove
        by_cases hpar : pathParent savedPath = MEDIA_DIR
        · rw [if_pos hpar] at hmove; cases hmove
        · rw [if_neg hpar] at hmove
          cases hn : normalize content <;> rw [hn] at hsave <;>
            simp only [Option.some.injEq, Prod.mk.injEq] at hsave <;>
            rw [← hsave.1, ← hsave.2, lookupFile_setFile] at hmove <;> cases hmove
      next fs2 sp2 hmove =>
        rw [hart]
  · intro db fs origin writeOk uuidHex normalize aid pname desc price hint content
      fs' db' r h
    obtain ⟨p, storedPath, h1, _, h3, h4, h5, h6, h7, h8⟩ :=
      upload_product_ok_inv db fs origin writeOk uuidHex normalize aid pname desc price
        hint content fs' db' r h
    exact ⟨p, storedPath, h1, h3, h5, h6, h7, h8⟩

/-- C4 witness: uploading to the absent artisan id 99 of the sample catalog
fails with `NotFound`. -/
theorem C4_upload_product_contract_witness :
    (upload_product dbW [] "" true "u0" (fun _ => none) 99 "P" "" "" "f.jpg" [7]).2
      = .error (.notFound "Artisan not found") :=
  C4_upload_product_contract.2.1 dbW [] "" "u0" (fun _ => none) 99 "P" "" "" "f.jpg" [7]
    (by decide)

/-- A trailing lone `%` matches any remaining input. -/
lemma likeMatch_pct_nil (cs : List Char) : likeMatch ['%'] cs = true := by
  rw [likeMatch_cons, if_pos rfl, List.any_eq_true]
  exact ⟨[], (List.mem_tails _ _).mpr List.nil_suffix, rfl⟩

/-- A wildcard-free pattern followed by `%` matches exactly the inputs it is
a case-insensitive prefix of. -/
lemma likeMatch_plain (q : List Char) (hq : ∀ c ∈ q, c ≠ '%' ∧ c ≠ '_') :
    ∀ cs : List Char,
      (likeMatch (q ++ ['%']) cs = true ↔
        q.map Char.toLower <+: cs.map Char.toLower) := by
  induction q with
  | nil =>
    intro cs
    simp [likeMatch_pct_nil]
  | cons p ps ih =>
    intro cs
    have hp := hq p (List.mem_cons_self p ps)
    have hps : ∀ c ∈ ps, c ≠ '%' ∧ c ≠ '_' :=
      fun c hc => hq c (List.mem_cons_of_mem p hc)
    rw [List.cons_append, likeMatch_cons, if_neg hp.1]
    cases cs with
    | nil =>
      show false = true ↔ _
      simp
    | cons c cs' =>
      show ((if p = '_' then true else p.toLower == c.toLower)
              && likeMatch (ps ++ ['%']) cs') = true ↔ _
      rw [if_neg hp.2]
      simp only [List.map_cons, List.cons_prefix_cons, Bool.and_eq_true, beq_iff_eq]
      exact and_congr Iff.rfl (ih hps cs')

/-- A leading `%` matches exactly when the rest matches some suffix. -/
lemma likeMatch_lead_pct (ps cs : List Char) :
    likeMatch ('%' :: ps) cs = true ↔ ∃ t, t <:+ cs ∧ likeMatch ps t = true := by
  rw [likeMatch_cons, if_pos rfl, List.any_eq_true]
  constructor
  · rintro ⟨t, ht, hp⟩
    exact ⟨t, (List.mem_tails _ _).mp ht, hp⟩
  · rintro ⟨t, ht, hp⟩
    exact ⟨t, (List.mem_tails _ _).mpr ht, hp⟩

/-- Having a suffix whose image has `n.map f` as a prefix is the same as
`n.map f` being an infix of the whole image. -/
lemma exists_suffix_map_iff (f : Char → Char) (n l : List Char) :
    (∃ t, t <:+ l ∧ n.map f <+: t.map f) ↔ n.map f <:+: l.map f := by
  constructor
  · rintro ⟨t, hsuf, hpre⟩
    exact List.infix_iff_prefix_suffix.mpr ⟨t.map f, hpre, hsuf.map f⟩
  · intro hinf
    obtain ⟨m, hpre, hsuf⟩ := List.infix_iff_prefix_suffix.mp hinf
    obtain ⟨t, htl, htm⟩ := List.isSuffix_map_iff.mp hsuf
    exact ⟨t, htl, htm ▸ hpre⟩

/-- `ciContains` is case-insensitive infix containment. -/
lemma ciContains_iff_infix (hay q : String) :
    ciContains hay q = true ↔
      (q.data.map Char.toLower) <:+: (hay.data.map Char.toLower) := by
  unfold ciContains
  rw [List.any_eq_true]
  constructor
  · rintro ⟨t, ht, hp⟩
    exact List.infix_iff_prefix_suffix.mpr
      ⟨t, ( List.isPrefixOf_iff_prefix).mp hp, (List.mem_tails _ _).mp ht⟩
  · intro hinf
    obtain ⟨m, hpre, hsuf⟩ := List.infix_iff_prefix_suffix.mp hinf
    exact ⟨m, (List.mem_tails _ _).mpr hsuf, ( List.isPrefixOf_iff_prefix).mpr hpre⟩

/-- On wildcard-free needles, `ILIKE '%needle%'` is exactly case-insensitive
substring containment. -/
lemma ilike_eq_ciContains (hay q : String) (hq : noWildcards q) :
    ilike hay ("%" ++ q ++ "%") = ciContains hay q := by
  have hdata : ("%" ++ q ++ "%").data = '%' :: (q.data ++ ['%']) := by
    rw [String.data_append, String.data_append]
    rfl
  rw [Bool.eq_iff_iff]
  unfold ilike
  rw [hdata, likeMatch_lead_pct, ciContains_iff_infix,
    ← exists_suffix_map_iff Char.toLower]
  constructor
  · rintro ⟨t, ht, hm⟩
    exact ⟨t, ht, (likeMatch_plain q.data hq t).mp hm⟩
  · rintro ⟨t, ht, hm⟩
    exact ⟨t, ht, (likeMatch_plain q.data hq t).mpr hm⟩

/-- Rows of the Product ⋈ Artisan join pair each product in the catalog with
its owning artisan. -/
lemma joinRows_mem (db : DB) (pa : Product × Artisan) (h : pa ∈ joinRows db) :
    pa.1 ∈ db.products ∧ getArtisan db pa.1.artisan_id = some pa.2 := by
  unfold joinRows at h
  obtain ⟨p, hp, hmap⟩ := List.mem_filterMap.mp h
  cases hga : getArtisan db p.artisan_id with
  | none => rw [hga] at hmap; cases hmap
  | some a =>
    rw [hga] at hmap
    rw [Option.map_some'] at hmap
    obtain h' := Option.some.inj hmap
    subst h'
    exact ⟨hp, hga⟩

/-- C3 counterexample: the query string is spliced into the SQL pattern
`%q%` unescaped, so its LIKE wildcards stay active.  Searching the sample
catalog for `q = "_"` returns the product named "Auto Pot" (`_` matches any
one character), although "Auto Pot" does not contain the substring `"_"` —
so "returns only products whose name contains q as a case-insensitive
substring" fails for every query string containing `%` or `_`. -/
theorem C3_counterexample :
    search dbW "_" "" 20 = [(prodPot, artA)] ∧
    ciContains prodPot.name "_" = false := by
  refine ⟨by decide, by decide⟩

/-- C3 (amended): for every query string q and location free of the SQL LIKE
wildcard characters `%` and `_`, `GET /search` returns exactly the rows the
specification describes: products (each paired with its owning artisan)
whose name contains q as a case-insensitive substring, further restricted —
when a non-empty location is supplied — to owning artisans whose location
contains it as a case-insensitive substring, capped at `limit`;
for wildcard-carrying query strings the match instead follows SQL LIKE
pattern semantics. -/
theorem C3_search_substring_amended (db : DB) (q location : String) (limit : Nat)
    (hq : noWildcards q) (hloc : noWildcards location) :
    search db q location limit = searchSpec db q location limit ∧
    (search db q location limit).length ≤ limit ∧
    ∀ pa ∈ search db q location limit,
      ciContains pa.1.name q = true ∧
      (location ≠ "" → ciContains pa.2.location location = true) ∧
      pa.1 ∈ db.products ∧
      getArtisan db pa.1.artisan_id = some pa.2 := by
  have hname : ∀ s : String, ilike s ("%" ++ q ++ "%") = ciContains s q :=
    fun s => ilike_eq_ciContains s q hq
  have hlocf : ∀ s : String, ilike s ("%" ++ location ++ "%") = ciContains s location :=
    fun s => ilike_eq_ciContains s location hloc
  refine ⟨?_, ?_, ?_⟩
  · simp only [search, searchSpec]
    rw [List.filter_congr (fun a _ => hname a.1.name)]
    by_cases hl : location = ""
    · rw [if_pos hl, if_pos hl]
    · rw [if_neg hl, if_neg hl, List.filter_congr (fun a _ => hlocf a.2.location)]
  · simp only [search]
    by_cases hl : location = ""
    · rw [if_pos hl]
      exact List.length_take_le ..
    · rw [if_neg hl]
      exact List.length_take_le ..
  · intro pa hpa
    simp only [search] at hpa
    by_cases hl : location = ""
    · rw [if_pos hl] at hpa
      have hmem := List.mem_of_mem_take hpa
      have hjr := (List.mem_filter.mp hmem).1
      have hpred := (List.mem_filter.mp hmem).2
      obtain ⟨hprod, hown⟩ := joinRows_mem db pa hjr
      exact ⟨(hname pa.1.name) ▸ hpred, fun hcon => absurd hl hcon, hprod, hown⟩
    · rw [if_neg hl] at hpa
      have hmem := List.mem_of_mem_take hpa
      have hlocpred := (List.mem_filter.mp hmem).2
      have hmem1 := (List.mem_filter.mp hmem).1
      have hjr := (List.mem_filter.mp hmem1).1
      have hpred := (List.mem_filter.mp hmem1).2
      obtain ⟨hprod, hown⟩ := joinRows_mem db pa hjr
      exact ⟨(hname pa.1.name) ▸ hpred,
        fun _ => (hlocf pa.2.location) ▸ hlocpred, hprod, hown⟩

/-- C3 witness: searching the sample catalog for "pot" in "ville". -/
theorem C3_search_substring_amended_witness :
    search dbW "pot" "ville" 20 = searchSpec dbW "pot" "ville" 20 ∧
    (search dbW "pot" "ville" 20).length ≤ 20 ∧
    ∀ pa ∈ search dbW "pot" "ville" 20,
      ciContains pa.1.name "pot" = true ∧
      (("ville" : String) ≠ "" → ciContains pa.2.location "ville" = true) ∧
      pa.1 ∈ dbW.products ∧
      getArtisan dbW pa.1.artisan_id = some pa.2 :=
  C3_search_substring_amended dbW "pot" "ville" 20 (by decide) (by decide)

/-- The greedy `\x7b.*\x7d` span on a response of the form `A ++ B ++ C`,
where `A` has no opening brace, `C` has no closing brace, and `B` opens with
`{` and closes with `}`, is exactly `B`. -/
lemma extractBraceSpan_of_shape (A B C : String)
    (hA : ('{' : Char) ∉ A.data) (hC : ('}' : Char) ∉ C.data)
    (mid : List Char) (hmid : B.data = '{' :: mid)
    (front : List Char) (hfront : B.data = front ++ ['}']) :
    extractBraceSpan (A ++ B ++ C) = some B := by
  unfold extractBraceSpan
  have hdataeq : (A ++ B ++ C).data = A.data ++ (B.data ++ C.data) := by
    rw [String.data_append, String.data_append, List.append_assoc]
  rw [hdataeq]
  rw [List.dropWhile_append_of_pos (p := fun c => decide (c ≠ '{'))
    (fun a ha => by
      simp only [decide_eq_true_eq]
      intro h
      exact hA (h ▸ ha))]
  rw [hmid, List.cons_append, List.dropWhile_cons_of_neg (by simp)]
  show (match ('{' :: (mid ++ C.data)).reverse.dropWhile (fun c => decide (c ≠ '}')) with
        | [] => none
        | r => some (⟨r.reverse⟩ : String)) = some B
  rw [← List.cons_append, ← hmid, List.reverse_append]
  rw [List.dropWhile_append_of_pos (p := fun c => decide (c ≠ '}'))
    (fun a ha => by
      rw [List.mem_reverse] at ha
      simp only [decide_eq_true_eq]
      intro h
      exact hC (h ▸ ha))]
  rw [hfront, List.reverse_append]
  show (match List.dropWhile (fun c => decide (c ≠ '}')) ('}' :: front.reverse) with
        | [] => none
        | r => some (⟨r.reverse⟩ : String)) = some B
  rw [List.dropWhile_cons_of_neg (by simp)]
  show some (⟨('}' :: front.reverse).reverse⟩ : String) = some B
  rw [List.reverse_cons, List.reverse_reverse, ← hfront]

/-- C7 counterexample: on the response `{"translated": "T", "enriched":
"E"}}` — a well-formed structured block carrying both string fields,
followed by one stray closing brace — the gateway answers the identity pair
`("B", "B")` instead of `("T", "E")`: the code extracts the span from the
first `{` to the *last* `}` (regex `\x7b.*\x7d` is greedy), which is not
well-formed, and both parse attempts fail.  So "extracting the first
well-formed structured block" does not describe the code. -/
theorem C7_counterexample :
    translate_and_enrich
        (some (fun _ => some "\x7b\"translated\": \"T\", \"enriched\": \"E\"\x7d\x7d"))
        "B" "auto" "English" = ("B", "B") ∧
    jsonLoadsFlat "\x7b\"translated\": \"T\", \"enriched\": \"E\"\x7d" =
      some [("translated", "T"), ("enriched", "E")] ∧
    "\x7b\"translated\": \"T\", \"enriched\": \"E\"\x7d" ++ "\x7d"
      = "\x7b\"translated\": \"T\", \"enriched\": \"E\"\x7d\x7d" ∧
    (("B", "B") : String × String) ≠ ("T", "E") := by
  refine ⟨by decide, by decide, by decide, by decide⟩

/-- C7 (amended): the gateway tolerates surrounding text by taking the span
from the first `{` to the last `}` of the response and parsing that (falling
back to parsing the whole response, then to the identity pair): whenever the
response is a structured block with the two string fields `translated` and
`enriched` preceded by text with no `{` and followed by text with no `}`,
the two field values are returned; when no such span can be extracted and
parsed the identity fallback is returned (the latter is part of claim C1's
theorem). -/
theorem C7_greedy_extraction_amended (text from_lang to_lang A C : String)
    (htext : text ≠ "")
    (hA : ('{' : Char) ∉ A.data)
    (hC : ('}' : Char) ∉ C.data) :
    translate_and_enrich
      (some (fun _ => some (A ++ "\x7b\"translated\": \"T\", \"enriched\": \"E\"\x7d" ++ C)))
      text from_lang to_lang = ("T", "E") := by
  have hspan : extractBraceSpan (A ++ "\x7b\"translated\": \"T\", \"enriched\": \"E\"\x7d" ++ C)
      = some "\x7b\"translated\": \"T\", \"enriched\": \"E\"\x7d" :=
    extractBraceSpan_of_shape A _ C hA hC
      "\"translated\": \"T\", \"enriched\": \"E\"\x7d".data (by decide)
      "\x7b\"translated\": \"T\", \"enriched\": \"E\"".data (by decide)
  unfold translate_and_enrich
  rw [if_neg htext]
  show (match extractBraceSpan
          (A ++ "\x7b\"translated\": \"T\", \"enriched\": \"E\"\x7d" ++ C) with
        | some block =>
          match jsonLoadsFlat block with
          | some j => (jget j "translated" text, jget j "enriched" text)
          | none =>
            match jsonLoadsFlat
                (A ++ "\x7b\"translated\": \"T\", \"enriched\": \"E\"\x7d" ++ C) with
            | some j2 => (jget j2 "translated" text, jget j2 "enriched" text)
            | none => (text, text)
        | none => (text, text)) = ("T", "E")
  rw [hspan]
  rfl

/-- C7 witness: surrounding chatter without stray braces is tolerated. -/
theorem C7_greedy_extraction_amended_witness :
    translate_and_enrich
      (some (fun _ => some ("Sure! Here is the JSON you asked for: " ++
        "\x7b\"translated\": \"T\", \"enriched\": \"E\"\x7d" ++ " Anything else?")))
      "hola" "Spanish" "English" = ("T", "E") :=
  C7_greedy_extraction_amended "hola" "Spanish" "English"
    "Sure! Here is the JSON you asked for: " " Anything else?"
    (by decide) (by decide) (by decide)

end ArtisanConnect
